import Mathlib

/-!
Shallow embedding of the domain-event publisher
(src/events/DomainEventPublisher.ts).

The publisher owns two pieces of mutable state: the subscriber registry
(an ordered array of listener references, here listener identifiers of
type Nat, standing for reference identity) and the boolean dispatch flag
`publishing`.

A listener's `handle` runs synchronously up to its return: during that
synchronous run it may call back into the publisher (subscribe,
unsubscribe, publish, reset), and it may either throw synchronously or
return a promise that later fulfils or rejects.  A behaviour therefore
records the list of publisher calls made by `handle`, whether `handle`
throws synchronously at the end of that list, and whether the returned
promise rejects.  `Promise.allSettled` waits on all returned promises
and swallows their rejections, so `asyncRejects` never influences the
publisher; a synchronous throw, by contrast, escapes the `.map` callback,
aborts the iteration, and rejects the promise returned by `publish`
(after the `finally` block has cleared the flag).
-/

namespace DomainEventPublisher

/-- The publisher's mutable state: the subscriber registry (`this.subscribers`)
and the dispatch flag (`this.publishing`). -/
structure State where
  subscribers : List Nat
  publishing : Bool
deriving DecidableEq, Repr

/-- A publisher call a listener's `handle` may make synchronously while it runs. -/
inductive Action (E : Type) where
  | subscribeA (l : Nat)
  | unsubscribeA (l : Nat)
  | publishA (e : E)
  | resetA
deriving DecidableEq

/-- The behaviour of one listener's `handle` on one event: the publisher calls it
makes, whether it then throws synchronously, and whether the promise it returns
(when it does return) later rejects. -/
structure Behavior (E : Type) where
  actions : List (Action E)
  throwsSync : Bool
  asyncRejects : Bool
deriving DecidableEq

/-- The observable result of one `publish` call: the state when it returns, the
listener invocations it performed in order, the number of console.warn
diagnostics emitted, and whether the promise it returns rejects. -/
structure PublishResult where
  state : State
  invoked : List Nat
  warns : Nat
  rejects : Bool
deriving DecidableEq, Repr

/-- `subscribe`: if the dispatch flag is set the call is a silent no-op,
otherwise the listener is pushed onto the end of the registry. -/
def subscribe (s : State) (l : Nat) : State :=
  if s.publishing then s else { s with subscribers := s.subscribers ++ [l] }

/-- `indexOf` followed by `splice(index, 1)`: remove the first occurrence of
`l`, leave the list unchanged when `l` is absent. -/
def removeFirst : List Nat → Nat → List Nat
  | [], _ => []
  | x :: xs, l => if x = l then xs else x :: removeFirst xs l

/-- `unsubscribe`: if the dispatch flag is set, warn (the returned Bool) and
leave the registry alone; otherwise remove the first occurrence of the
listener. -/
def unsubscribe (s : State) (l : Nat) : State × Bool :=
  if s.publishing then (s, true)
  else ({ s with subscribers := removeFirst s.subscribers l }, false)

/-- `reset`: replace the registry with a fresh empty array, regardless of the
dispatch flag; the flag itself is untouched. -/
def reset (s : State) : State :=
  { s with subscribers := [] }

/-- Run the synchronous publisher calls a listener's `handle` makes, threading
state, the warn count and the invocation log.  `pub` interprets a nested
`publish` call. -/
def runActions {E : Type} (pub : E → State → PublishResult) :
    State → Nat → List Nat → List (Action E) → State × Nat × List Nat
  | s, w, inv, [] => (s, w, inv)
  | s, w, inv, Action.subscribeA l :: rest =>
      runActions pub (subscribe s l) w inv rest
  | s, w, inv, Action.unsubscribeA l :: rest =>
      runActions pub (unsubscribe s l).1
        (w + (if (unsubscribe s l).2 then 1 else 0)) inv rest
  | s, w, inv, Action.publishA e :: rest =>
      runActions pub (pub e s).state (w + (pub e s).warns)
        (inv ++ (pub e s).invoked) rest
  | s, w, inv, Action.resetA :: rest =>
      runActions pub (reset s) w inv rest

/-- The `.map` over the registry snapshot: invoke each listener's `handle` in
order; a synchronous throw aborts the iteration (final Bool: an exception
escaped).  The snapshot list is the array object `this.subscribers` referred to
when `.map` started; during dispatch `subscribe`/`unsubscribe` are blocked by
the flag and `reset` replaces the array rather than mutating it, so the
snapshot is never edited mid-iteration. -/
def runMap {E : Type} (pub : E → State → PublishResult)
    (env : Nat → E → Behavior E) (e : E) :
    State → Nat → List Nat → List Nat → State × Nat × List Nat × Bool
  | s, w, inv, [] => (s, w, inv, false)
  | s, w, inv, l :: ls =>
      match runActions pub s w (inv ++ [l]) (env l e).actions with
      | (s1, w1, inv1) =>
          if (env l e).throwsSync then (s1, w1, inv1, true)
          else runMap pub env e s1 w1 inv1 ls

/-- The body of `publish`, parametric in the interpreter `pub` used for nested
(re-entrant) publish calls made by listeners.  Guard: when the dispatch flag is
already set, return at once with no invocation, no diagnostic, no rejection and
the state untouched.  Otherwise set the flag, run the map over the registry
snapshot, await `allSettled` (which swallows promise rejections), and in
`finally` clear the flag; a synchronous listener throw propagates as a
rejection of the returned promise. -/
def publishGen {E : Type} (pub : E → State → PublishResult)
    (env : Nat → E → Behavior E) (e : E) (s : State) : PublishResult :=
  if s.publishing then ⟨s, [], 0, false⟩
  else
    match runMap pub env e ⟨s.subscribers, true⟩ 0 [] s.subscribers with
    | (s1, w, inv, threw) => ⟨⟨s1.subscribers, false⟩, inv, w, threw⟩

/-- `publish` with fuel bounding the nesting depth of re-entrant publish
calls; fuel 0 returns like the re-entrancy guard.  `publishFuel_irrelevant`
below shows every positive fuel gives the same function, because the dispatch
flag is set throughout a dispatch, so every nested call is stopped by the
guard no matter the remaining fuel. -/
def publishFuel {E : Type} (env : Nat → E → Behavior E) : Nat → E → State → PublishResult
  | 0, _, s => ⟨s, [], 0, false⟩
  | n + 1, e, s => publishGen (fun e1 s1 => publishFuel env n e1 s1) env e s

/-- The publisher's `publish`. -/
def publish {E : Type} (env : Nat → E → Behavior E) (e : E) (s : State) : PublishResult :=
  publishFuel env 1 e s

/-- The singleton's state at process start: empty registry, flag clear. -/
def initial : State := ⟨[], false⟩

/-- A sequence of `subscribe` calls, left to right. -/
def subscribeAll (s : State) (ls : List Nat) : State :=
  ls.foldl subscribe s

/-- Whether a list of actions contains a `reset` call. -/
def hasReset {E : Type} : List (Action E) → Bool
  | [] => false
  | Action.resetA :: _ => true
  | _ :: rest => hasReset rest

/-- The listeners `publish` invokes when dispatching snapshot `ls`: everyone
up to and including the first listener whose `handle` throws synchronously. -/
def invokedOf {E : Type} (env : Nat → E → Behavior E) (e : E) : List Nat → List Nat
  | [] => []
  | l :: ls => if (env l e).throwsSync then [l] else l :: invokedOf env e ls

/-- Whether some invoked listener in the snapshot throws synchronously. -/
def anyThrow {E : Type} (env : Nat → E → Behavior E) (e : E) : List Nat → Bool
  | [] => false
  | l :: ls => (env l e).throwsSync || anyThrow env e ls

/-- Whether a `reset` call runs during the dispatch of snapshot `ls`: some
listener that actually gets invoked calls `reset` before a synchronous throw
cuts the iteration short. -/
def resetHappens {E : Type} (env : Nat → E → Behavior E) (e : E) : List Nat → Bool
  | [] => false
  | l :: ls =>
      hasReset (env l e).actions ||
        (!(env l e).throwsSync && resetHappens env e ls)

/-- A nested-publish interpreter that returns at once on any state whose
dispatch flag is set: the behaviour the real `publish` has there. -/
def PubTrivial {E : Type} (pub : E → State → PublishResult) : Prop :=
  ∀ (e : E) (s : State), s.publishing = true → pub e s = ⟨s, [], 0, false⟩

theorem publishFuel_of_publishing {E : Type} (env : Nat → E → Behavior E) (n : Nat)
    (e : E) (s : State) (h : s.publishing = true) :
    publishFuel env n e s = ⟨s, [], 0, false⟩ := by
  cases n with
  | zero => rfl
  | succ k => simp [publishFuel, publishGen, h]

theorem pubTrivial_publishFuel {E : Type} (n : Nat) (env : Nat → E → Behavior E) :
    PubTrivial (fun e s => publishFuel env n e s) := fun e s h =>
  publishFuel_of_publishing env n e s h

/-- While the dispatch flag is set, running a listener's synchronous publisher
calls leaves the flag set, never logs an invocation, and leaves the registry
unchanged unless one of the calls is `reset`, which empties it: `subscribe` and
`unsubscribe` are blocked by the flag, and a nested `publish` is stopped by the
re-entrancy guard. -/
theorem runActions_dispatch {E : Type} {pub : E → State → PublishResult}
    (hpub : PubTrivial pub) :
    ∀ (acts : List (Action E)) (s : State) (w : Nat) (inv : List Nat),
      s.publishing = true →
      ∃ w1, runActions pub s w inv acts =
        (⟨if hasReset acts then [] else s.subscribers, true⟩, w1, inv) := by
  intro acts
  induction acts with
  | nil =>
      intro s w inv h
      cases s with
      | mk subs p =>
          simp only [Bool.true_eq] at h
          subst h
          exact ⟨w, by simp [runActions, hasReset]⟩
  | cons a rest ih =>
      intro s w inv h
      cases a with
      | subscribeA l =>
          obtain ⟨w1, hw⟩ := ih s w inv h
          refine ⟨w1, ?_⟩
          simpa [runActions, subscribe, h, hasReset] using hw
      | unsubscribeA l =>
          obtain ⟨w1, hw⟩ := ih s (w + 1) inv h
          refine ⟨w1, ?_⟩
          simpa [runActions, unsubscribe, h, hasReset] using hw
      | publishA e1 =>
          obtain ⟨w1, hw⟩ := ih s w inv h
          refine ⟨w1, ?_⟩
          simpa [runActions, hpub e1 s h, hasReset] using hw
      | resetA =>
          obtain ⟨w1, hw⟩ := ih ⟨[], true⟩ w inv rfl
          refine ⟨w1, ?_⟩
          have hr : reset s = ⟨[], true⟩ := by
            cases s with
            | mk subs p =>
                simp only [Bool.true_eq] at h
                subst h
                rfl
          simpa [runActions, hr, hasReset] using hw

/-- While the dispatch flag is set, the `.map` over a snapshot invokes exactly
the listeners in `invokedOf` (everyone up to and including the first
synchronous thrower), aborts with an exception exactly when some invoked
listener throws synchronously, keeps the flag set, and ends with the registry
empty when some invoked listener called `reset` and unchanged otherwise. -/
theorem runMap_dispatch {E : Type} {pub : E → State → PublishResult}
    (hpub : PubTrivial pub) (env : Nat → E → Behavior E) (e : E) :
    ∀ (ls : List Nat) (s : State) (w : Nat) (inv : List Nat),
      s.publishing = true →
      ∃ w1, runMap pub env e s w inv ls =
        (⟨if resetHappens env e ls then [] else s.subscribers, true⟩, w1,
         inv ++ invokedOf env e ls, anyThrow env e ls) := by
  intro ls
  induction ls with
  | nil =>
      intro s w inv h
      cases s with
      | mk subs p =>
          simp only [Bool.true_eq] at h
          subst h
          exact ⟨w, by simp [runMap, resetHappens, invokedOf, anyThrow]⟩
  | cons l ls ih =>
      intro s w inv h
      obtain ⟨w1, hA⟩ := runActions_dispatch hpub (env l e).actions s w (inv ++ [l]) h
      by_cases ht : (env l e).throwsSync = true
      · refine ⟨w1, ?_⟩
        simp [runMap, hA, ht, resetHappens, invokedOf, anyThrow]
      · have ht' : (env l e).throwsSync = false := by
          cases hb : (env l e).throwsSync
          · rfl
          · exact absurd hb ht
        obtain ⟨w2, hM⟩ :=
          ih ⟨if hasReset (env l e).actions then [] else s.subscribers, true⟩ w1 (inv ++ [l]) rfl
        refine ⟨w2, ?_⟩
        simp only [runMap, hA, ht', if_false, Bool.false_eq_true]
        rw [hM]
        simp only [resetHappens, invokedOf, anyThrow, ht', Bool.not_false, Bool.true_and,
          Bool.false_or, List.append_assoc, List.singleton_append]
        cases hres : hasReset (env l e).actions <;>
          cases hres2 : resetHappens env e ls <;> simp [hres, hres2]

/-- When `publish` starts from an idle state it sets the flag, invokes exactly
the listeners of `invokedOf` over the registry snapshot, clears the flag again,
ends with an empty registry exactly when an invoked listener called `reset`
(the registry is otherwise unchanged), and rejects exactly when an invoked
listener threw synchronously. -/
theorem publish_run {E : Type} (env : Nat → E → Behavior E) (e : E) (s : State)
    (h : s.publishing = false) :
    ∃ w, publish env e s =
      ⟨⟨if resetHappens env e s.subscribers then [] else s.subscribers, false⟩,
       invokedOf env e s.subscribers, w, anyThrow env e s.subscribers⟩ := by
  obtain ⟨w1, hM⟩ :=
    runMap_dispatch (pubTrivial_publishFuel 0 env) env e s.subscribers
      ⟨s.subscribers, true⟩ 0 [] rfl
  refine ⟨w1, ?_⟩
  simp only [publishFuel] at hM
  simp only [publish, publishFuel, publishGen, h, Bool.false_eq_true, if_false]
  rw [hM]
  simp

/-- Two guard-respecting interpreters for nested publish calls run a
listener's actions identically on any state whose dispatch flag is set. -/
theorem runActions_congr {E : Type} {pub1 pub2 : E → State → PublishResult}
    (h1 : PubTrivial pub1) (h2 : PubTrivial pub2) :
    ∀ (acts : List (Action E)) (s : State) (w : Nat) (inv : List Nat),
      s.publishing = true →
      runActions pub1 s w inv acts = runActions pub2 s w inv acts := by
  intro acts
  induction acts with
  | nil => intro s w inv h; rfl
  | cons a rest ih =>
      intro s w inv h
      cases a with
      | subscribeA l =>
          simp only [runActions, subscribe, h, if_true]
          exact ih s w inv h
      | unsubscribeA l =>
          simp only [runActions, unsubscribe, h, if_true]
          exact ih s _ inv h
      | publishA e1 =>
          simp only [runActions, h1 e1 s h, h2 e1 s h]
          exact ih s _ _ h
      | resetA =>
          simp only [runActions]
          exact ih (reset s) w inv (by simpa [reset] using h)

/-- Two guard-respecting interpreters for nested publish calls give the same
`.map` run on any state whose dispatch flag is set. -/
theorem runMap_congr {E : Type} {pub1 pub2 : E → State → PublishResult}
    (h1 : PubTrivial pub1) (h2 : PubTrivial pub2) (env : Nat → E → Behavior E) (e : E) :
    ∀ (ls : List Nat) (s : State) (w : Nat) (inv : List Nat),
      s.publishing = true →
      runMap pub1 env e s w inv ls = runMap pub2 env e s w inv ls := by
  intro ls
  induction ls with
  | nil => intro s w inv h; rfl
  | cons l ls ih =>
      intro s w inv h
      obtain ⟨w1, hA⟩ := runActions_dispatch h1 (env l e).actions s w (inv ++ [l]) h
      have hA2 : runActions pub2 s w (inv ++ [l]) (env l e).actions =
          (⟨if hasReset (env l e).actions then [] else s.subscribers, true⟩, w1, inv ++ [l]) := by
        rw [← runActions_congr h1 h2 (env l e).actions s w (inv ++ [l]) h]
        exact hA
      simp only [runMap, hA, hA2]
      by_cases ht : (env l e).throwsSync = true
      · simp [ht]
      · have ht' : (env l e).throwsSync = false := by
          cases hb : (env l e).throwsSync
          · rfl
          · exact absurd hb ht
        simp only [ht', Bool.false_eq_true, if_false]
        exact ih _ w1 (inv ++ [l]) rfl

/-- The fuel in `publishFuel` is irrelevant as long as it is positive: the
dispatch flag is set for the whole of a dispatch, so every nested publish call
a listener makes is stopped by the re-entrancy guard no matter how much fuel
remains.  `publish` is therefore a faithful, fuel-free reading of the source's
`publish`. -/
theorem publishFuel_irrelevant {E : Type} (env : Nat → E → Behavior E) (n : Nat)
    (e : E) (s : State) :
    publishFuel env (n + 1) e s = publish env e s := by
  cases hp : s.publishing
  · simp only [publish, publishFuel, publishGen, hp, Bool.false_eq_true, if_false]
    rw [runMap_congr (pubTrivial_publishFuel n env) (pubTrivial_publishFuel 0 env)
      env e s.subscribers ⟨s.subscribers, true⟩ 0 [] rfl]
    rfl
  · rw [publishFuel_of_publishing env (n + 1) e s hp, publish,
      publishFuel_of_publishing env 1 e s hp]

/-- When no listener of the snapshot throws synchronously, every listener of
the snapshot is invoked, in order, and no exception escapes the map. -/
theorem invokedOf_of_no_throw {E : Type} (env : Nat → E → Behavior E) (e : E) :
    ∀ (ls : List Nat), (∀ l ∈ ls, (env l e).throwsSync = false) →
      invokedOf env e ls = ls ∧ anyThrow env e ls = false := by
  intro ls
  induction ls with
  | nil => intro _; exact ⟨rfl, rfl⟩
  | cons l ls ih =>
      intro hno
      have hl : (env l e).throwsSync = false := hno l (List.mem_cons_self l ls)
      have hrest := ih (fun x hx => hno x (List.mem_cons_of_mem l hx))
      constructor
      · simp [invokedOf, hl, hrest.1]
      · simp [anyThrow, hl, hrest.2]

/-- When no listener of the snapshot throws synchronously and some listener of
the snapshot calls `reset`, a reset happens during the dispatch. -/
theorem resetHappens_of_mem {E : Type} (env : Nat → E → Behavior E) (e : E) :
    ∀ (ls : List Nat) (l0 : Nat), l0 ∈ ls →
      hasReset (env l0 e).actions = true →
      (∀ l ∈ ls, (env l e).throwsSync = false) →
      resetHappens env e ls = true := by
  intro ls
  induction ls with
  | nil => intro l0 hmem; exact absurd hmem (List.not_mem_nil l0)
  | cons l ls ih =>
      intro l0 hmem hres hno
      rcases List.mem_cons.mp hmem with heq | htail
      · subst heq
        simp [resetHappens, hres]
      · have hl : (env l e).throwsSync = false := hno l (List.mem_cons_self l ls)
        have := ih l0 htail hres (fun x hx => hno x (List.mem_cons_of_mem l hx))
        simp [resetHappens, hl, this]

/-- `removeFirst` is the identity when the listener is absent. -/
theorem removeFirst_of_not_mem :
    ∀ (xs : List Nat) (l : Nat), l ∉ xs → removeFirst xs l = xs := by
  intro xs
  induction xs with
  | nil => intro l _; rfl
  | cons x xs ih =>
      intro l hl
      have hx : x ≠ l := fun h => hl (h ▸ List.mem_cons_self x xs)
      have hxs : l ∉ xs := fun h => hl (List.mem_cons_of_mem x h)
      simp [removeFirst, hx, ih l hxs]

/-- When the listener is present, `removeFirst` deletes exactly its first
occurrence: the registry splits as `pre ++ l :: post` with `l` not in `pre`,
and the result is `pre ++ post`. -/
theorem removeFirst_decomp :
    ∀ (xs : List Nat) (l : Nat), l ∈ xs →
      ∃ pre post, xs = pre ++ l :: post ∧ l ∉ pre ∧ removeFirst xs l = pre ++ post := by
  intro xs
  induction xs with
  | nil => intro l hl; exact absurd hl (List.not_mem_nil l)
  | cons x xs ih =>
      intro l hl
      by_cases hx : x = l
      · subst hx
        exact ⟨[], xs, rfl, List.not_mem_nil x, by simp [removeFirst]⟩
      · have hxs : l ∈ xs := by
          rcases List.mem_cons.mp hl with h | h
          · exact absurd h.symm hx
          · exact h
        obtain ⟨pre, post, hsplit, hnot, hrem⟩ := ih l hxs
        refine ⟨x :: pre, post, by simp [hsplit], ?_, ?_⟩
        · intro hmem
          rcases List.mem_cons.mp hmem with h | h
          · exact hx h.symm
          · exact hnot h
        · simp [removeFirst, hx, hrem]

/-- A run of `subscribe` calls from an idle state appends the listeners in call
order and leaves the flag clear. -/
theorem subscribeAll_idle :
    ∀ (ls : List Nat) (s : State), s.publishing = false →
      subscribeAll s ls = ⟨s.subscribers ++ ls, false⟩ := by
  intro ls
  induction ls with
  | nil =>
      intro s h
      cases s with
      | mk subs p =>
          simp only [Bool.false_eq] at h
          subst h
          simp [subscribeAll]
  | cons l ls ih =>
      intro s h
      have hstep : subscribe s l = ⟨s.subscribers ++ [l], false⟩ := by
        cases s with
        | mk subs p =>
            simp only [Bool.false_eq] at h
            subst h
            simp [subscribe]
      calc subscribeAll s (l :: ls) = subscribeAll (subscribe s l) ls := rfl
        _ = ⟨(subscribe s l).subscribers ++ ls, false⟩ := ih (subscribe s l) (by rw [hstep])
        _ = ⟨s.subscribers ++ l :: ls, false⟩ := by rw [hstep]; simp

/-- A listener that makes no publisher calls, returns, and fulfils. -/
def benign : Behavior Nat := ⟨[], false, false⟩

/-- A listener whose `handle` throws synchronously. -/
def thrower : Behavior Nat := ⟨[], true, false⟩

/-- A listener whose `handle` returns a promise that later rejects. -/
def rejecter : Behavior Nat := ⟨[], false, true⟩

/-- Environment where listener 1 throws synchronously and everyone else is benign. -/
def envSyncThrow : Nat → Nat → Behavior Nat := fun l _ =>
  if l = 1 then thrower else benign

/-- Environment where every listener returns a rejecting promise. -/
def envRejecting : Nat → Nat → Behavior Nat := fun _ _ => rejecter

/-- Environment where listener 1 calls `reset` from inside its `handle`. -/
def envResetInside : Nat → Nat → Behavior Nat := fun l _ =>
  if l = 1 then ⟨[Action.resetA], false, false⟩ else benign

/-- Environment where every listener is benign. -/
def envBenign : Nat → Nat → Behavior Nat := fun _ _ => benign

/-- Claim C1, counterexample: with registry `[1, 2]` where listener 1 throws
synchronously, `publish` invokes only listener 1 — listener 2 is present in
the registry at call time but never invoked, so publish does not invoke handle
on each listener present. -/
theorem publish_sync_throw_skips_listener_cex :
    (publish envSyncThrow 0 ⟨[1, 2], false⟩).invoked = [1] ∧
    (2 : Nat) ∉ (publish envSyncThrow 0 ⟨[1, 2], false⟩).invoked := by
  decide

/-- Claim C1 (amended): provided no listener present in the registry throws
synchronously (their promises may still reject), `publish` from an idle state
invokes `handle` exactly once per registry occurrence, in registration order:
the invocation log equals the registry at call time. -/
theorem publish_invokes_all_in_order {E : Type} (env : Nat → E → Behavior E) (e : E)
    (s : State) (h : s.publishing = false)
    (hno : ∀ l ∈ s.subscribers, (env l e).throwsSync = false) :
    (publish env e s).invoked = s.subscribers := by
  obtain ⟨w, hw⟩ := publish_run env e s h
  rw [hw]
  exact (invokedOf_of_no_throw env e s.subscribers hno).1

theorem publish_invokes_all_in_order_witness :
    (publish envBenign 0 ⟨[4, 4, 9], false⟩).invoked = [4, 4, 9] :=
  publish_invokes_all_in_order envBenign 0 ⟨[4, 4, 9], false⟩ rfl (by decide)

/-- Claim C2, counterexample: registry `[1, 2, 3]`, listener 1's handle throws
synchronously — listeners 2 and 3 are not invoked and the publish call
propagates the failure (its promise rejects), contradicting the claim for the
synchronous-throw half. -/
theorem publish_sync_throw_aborts_cex :
    (publish envSyncThrow 7 ⟨[1, 2, 3], false⟩).invoked = [1] ∧
    (publish envSyncThrow 7 ⟨[1, 2, 3], false⟩).rejects = true := by
  decide

/-- Claim C2 (amended): if a listener's handle returns a rejecting promise,
publish still invokes every subsequent listener and completes without
propagating the failure (`Promise.allSettled` swallows rejections); only a
synchronous throw aborts the remaining invocations and rejects the publish
promise.  Formally: when no registry listener throws synchronously — their
promises may reject arbitrarily — every listener is invoked and publish does
not reject. -/
theorem publish_isolates_promise_rejections {E : Type} (env : Nat → E → Behavior E)
    (e : E) (s : State) (h : s.publishing = false)
    (hno : ∀ l ∈ s.subscribers, (env l e).throwsSync = false) :
    (publish env e s).invoked = s.subscribers ∧
    (publish env e s).rejects = false ∧
    (publish env e s).state.publishing = false := by
  obtain ⟨w, hw⟩ := publish_run env e s h
  rw [hw]
  obtain ⟨h1, h2⟩ := invokedOf_of_no_throw env e s.subscribers hno
  exact ⟨h1, h2, rfl⟩

theorem publish_isolates_promise_rejections_witness :
    (publish envRejecting 0 ⟨[7, 8], false⟩).invoked = [7, 8] ∧
    (publish envRejecting 0 ⟨[7, 8], false⟩).rejects = false ∧
    (publish envRejecting 0 ⟨[7, 8], false⟩).state.publishing = false :=
  publish_isolates_promise_rejections envRejecting 0 ⟨[7, 8], false⟩ rfl (by decide)

/-- Claim C3, counterexample: a single listener that throws synchronously
makes the promise returned by publish reject, so publish is not non-throwing
for every listener behaviour. -/
theorem publish_rejects_on_sync_throw_cex :
    (publish envSyncThrow 5 ⟨[1], false⟩).rejects = true := by
  decide

/-- Claim C3 (amended): subscribe, unsubscribe and reset never raise (they are
total, exceptionless state transformers for every input), and the promise
returned by publish never rejects provided no registered listener throws
synchronously; a synchronous listener throw escapes `Promise.allSettled` and
rejects the publish promise. -/
theorem publish_never_rejects_without_sync_throw {E : Type} (env : Nat → E → Behavior E)
    (e : E) (s : State)
    (hno : ∀ l ∈ s.subscribers, (env l e).throwsSync = false) :
    (publish env e s).rejects = false := by
  cases hp : s.publishing
  · obtain ⟨w, hw⟩ := publish_run env e s hp
    rw [hw]
    exact (invokedOf_of_no_throw env e s.subscribers hno).2
  · rw [publish, publishFuel_of_publishing env 1 e s hp]

theorem publish_never_rejects_without_sync_throw_witness :
    (publish envRejecting 3 ⟨[2, 6], false⟩).rejects = false :=
  publish_never_rejects_without_sync_throw envRejecting 3 ⟨[2, 6], false⟩ (by decide)

/-- Claim C4: a publish call made while the dispatch flag is already set
returns immediately: no listener is invoked, no diagnostic is emitted, the
promise does not reject, and the publisher state is exactly unchanged. -/
theorem publish_reentrant_noop {E : Type} (env : Nat → E → Behavior E) (e : E)
    (s : State) (h : s.publishing = true) :
    publish env e s = ⟨s, [], 0, false⟩ :=
  publishFuel_of_publishing env 1 e s h

theorem publish_reentrant_noop_witness :
    publish envBenign 0 ⟨[1, 2], true⟩ = ⟨⟨[1, 2], true⟩, [], 0, false⟩ :=
  publish_reentrant_noop envBenign 0 ⟨[1, 2], true⟩ rfl

/-- Claim C5: after a publish call that started idle returns — whatever the
listeners did, including synchronous throws — the dispatch flag is false
again, a subsequent subscribe appends to the registry normally, and a
subsequent unsubscribe proceeds without the while-publishing diagnostic. -/
theorem publish_releases_flag {E : Type} (env : Nat → E → Behavior E) (e : E)
    (s : State) (l m : Nat) (h : s.publishing = false) :
    (publish env e s).state.publishing = false ∧
    (subscribe (publish env e s).state l).subscribers =
      (publish env e s).state.subscribers ++ [l] ∧
    (unsubscribe (publish env e s).state m).2 = false := by
  obtain ⟨w, hw⟩ := publish_run env e s h
  rw [hw]
  exact ⟨rfl, by simp [subscribe], by simp [unsubscribe]⟩

theorem publish_releases_flag_witness :
    (publish envSyncThrow 0 ⟨[1, 2], false⟩).state.publishing = false ∧
    (subscribe (publish envSyncThrow 0 ⟨[1, 2], false⟩).state 3).subscribers =
      (publish envSyncThrow 0 ⟨[1, 2], false⟩).state.subscribers ++ [3] ∧
    (unsubscribe (publish envSyncThrow 0 ⟨[1, 2], false⟩).state 1).2 = false :=
  publish_releases_flag envSyncThrow 0 ⟨[1, 2], false⟩ 3 1 rfl

/-- Claim C6: while the dispatch flag is set, subscribe is a silent no-op on
the whole state and unsubscribe leaves the state unchanged while emitting
exactly its non-fatal warning; neither throws. -/
theorem mutation_blocked_while_dispatching (s : State) (l m : Nat)
    (h : s.publishing = true) :
    subscribe s l = s ∧ unsubscribe s m = (s, true) := by
  exact ⟨by simp [subscribe, h], by simp [unsubscribe, h]⟩

theorem mutation_blocked_while_dispatching_witness :
    subscribe ⟨[3], true⟩ 4 = ⟨[3], true⟩ ∧
    unsubscribe ⟨[3], true⟩ 3 = (⟨[3], true⟩, true) :=
  mutation_blocked_while_dispatching ⟨[3], true⟩ 4 3 rfl

/-- Claim C7: any sequence of subscribe calls made while the dispatch flag is
false appends the listeners in call order, keeping duplicates; starting from
the initial (empty, idle) state the registry afterwards is exactly the list of
listeners passed. -/
theorem subscribe_appends_in_order (s : State) (ls : List Nat)
    (h : s.publishing = false) :
    (subscribeAll s ls).subscribers = s.subscribers ++ ls ∧
    (subscribeAll initial ls).subscribers = ls := by
  constructor
  · rw [subscribeAll_idle ls s h]
  · rw [subscribeAll_idle ls initial rfl]
    rfl

theorem subscribe_appends_in_order_witness :
    (subscribeAll ⟨[9], false⟩ [2, 2, 5]).subscribers = [9] ++ [2, 2, 5] ∧
    (subscribeAll initial [2, 2, 5]).subscribers = [2, 2, 5] :=
  subscribe_appends_in_order ⟨[9], false⟩ [2, 2, 5] rfl

/-- Claim C8: with the dispatch flag false, unsubscribe removes exactly the
first occurrence of the listener (matched by identity), emits no diagnostic,
keeps the flag false, leaves the registry unchanged when the listener is
absent, and otherwise splits the registry as pre ++ listener :: post with the
listener not in pre and keeps pre ++ post in that relative order. -/
theorem unsubscribe_removes_first_occurrence (s : State) (l : Nat)
    (h : s.publishing = false) :
    (unsubscribe s l).2 = false ∧
    (unsubscribe s l).1.publishing = false ∧
    (unsubscribe s l).1.subscribers = removeFirst s.subscribers l ∧
    (l ∉ s.subscribers → (unsubscribe s l).1 = s) ∧
    (l ∈ s.subscribers → ∃ pre post, s.subscribers = pre ++ l :: post ∧ l ∉ pre ∧
      (unsubscribe s l).1.subscribers = pre ++ post) := by
  have hu : unsubscribe s l = (⟨removeFirst s.subscribers l, false⟩, false) := by
    cases s with
    | mk subs p =>
        simp only [Bool.false_eq] at h
        subst h
        simp [unsubscribe]
  refine ⟨by rw [hu], by rw [hu], by rw [hu], ?_, ?_⟩
  · intro hnot
    rw [hu, removeFirst_of_not_mem s.subscribers l hnot]
    cases s with
    | mk subs p =>
        simp only [Bool.false_eq] at h
        subst h
        rfl
  · intro hmem
    obtain ⟨pre, post, hsplit, hnotpre, hrem⟩ := removeFirst_decomp s.subscribers l hmem
    exact ⟨pre, post, hsplit, hnotpre, by rw [hu]; exact hrem⟩

theorem unsubscribe_removes_first_occurrence_witness :
    (unsubscribe ⟨[3, 5, 3], false⟩ 3).2 = false ∧
    (unsubscribe ⟨[3, 5, 3], false⟩ 3).1.publishing = false ∧
    (unsubscribe ⟨[3, 5, 3], false⟩ 3).1.subscribers = removeFirst [3, 5, 3] 3 ∧
    ((3 : Nat) ∉ ([3, 5, 3] : List Nat) → (unsubscribe ⟨[3, 5, 3], false⟩ 3).1 = ⟨[3, 5, 3], false⟩) ∧
    ((3 : Nat) ∈ ([3, 5, 3] : List Nat) → ∃ pre post,
      ([3, 5, 3] : List Nat) = pre ++ 3 :: post ∧ (3 : Nat) ∉ pre ∧
      (unsubscribe ⟨[3, 5, 3], false⟩ 3).1.subscribers = pre ++ post) :=
  unsubscribe_removes_first_occurrence ⟨[3, 5, 3], false⟩ 3 rfl

/-- Claim C9: reset empties the subscriber registry unconditionally, never
changes the dispatch flag, and a publish issued on the reset state invokes
zero listeners. -/
theorem reset_empties_registry {E : Type} (s : State) (env : Nat → E → Behavior E)
    (e : E) :
    (reset s).subscribers = [] ∧
    (reset s).publishing = s.publishing ∧
    (publish env e (reset s)).invoked = [] := by
  refine ⟨rfl, rfl, ?_⟩
  cases hp : s.publishing
  · obtain ⟨w, hw⟩ := publish_run env e (reset s) (by simpa [reset] using hp)
    rw [hw]
    simp [reset, invokedOf]
  · rw [publish, publishFuel_of_publishing env 1 e (reset s) (by simpa [reset] using hp)]

/-- Claim C10: if some listener of an idle-start dispatch calls reset from
inside its handle (and no listener throws synchronously), the in-flight
publish is unaffected — every listener that was in the registry when publish
started is still invoked, in order — and the registry is empty when publish
returns. -/
theorem reset_during_dispatch_preserves_delivery {E : Type} (env : Nat → E → Behavior E)
    (e : E) (s : State) (l0 : Nat) (h : s.publishing = false)
    (hno : ∀ l ∈ s.subscribers, (env l e).throwsSync = false)
    (hmem : l0 ∈ s.subscribers)
    (hres : hasReset (env l0 e).actions = true) :
    (publish env e s).invoked = s.subscribers ∧
    (publish env e s).state.subscribers = [] := by
  obtain ⟨w, hw⟩ := publish_run env e s h
  rw [hw]
  refine ⟨(invokedOf_of_no_throw env e s.subscribers hno).1, ?_⟩
  simp [resetHappens_of_mem env e s.subscribers l0 hmem hres hno]

theorem reset_during_dispatch_preserves_delivery_witness :
    (publish envResetInside 0 ⟨[1, 2], false⟩).invoked = [1, 2] ∧
    (publish envResetInside 0 ⟨[1, 2], false⟩).state.subscribers = [] :=
  reset_during_dispatch_preserves_delivery envResetInside 0 ⟨[1, 2], false⟩ 1 rfl
    (by decide) (by decide) (by decide)

end DomainEventPublisher
